import Mathlib

/-!
Verification of the `store` key/value abstraction.

Shallow embedding of the `charlesbases/store` repository: the option model
(`options.go`), the redis cache adapter (`rkv` in the redis package) and the
mysql relational adapter (`ormStore` in the mysql package).

Modelling conventions:
* Instants are `Int` nanoseconds since the Unix epoch; the Go zero `time.Time`
  is represented by `0`, matching `IsZero`.  `time.Duration` is an `Int` in
  nanoseconds.  `Time.Unix()` truncates to seconds (`unixSec`), and
  `time.Unix(sec, 0)` embeds seconds back into nanoseconds (`unixToNs`).
* Byte slices are `List Nat`.
* Go functional options (`store.WriteOption` etc.) are lists of endofunctions
  applied left to right, exactly as the `for _, o := range opts` loops do.
* The redis engine is an insertion-ordered association list of live entries
  (a deterministic model of the external engine); `SET` with a positive
  duration stores an absolute deadline, with a non-positive duration stores
  no deadline (go-redis only emits `EX`/`PX` for positive expirations), and
  `GET`/`KEYS`/`TTL` treat an entry whose deadline has passed as absent.
* The mysql engine is a table of rows kept in ascending-id (insertion) order,
  so `ORDER BY id` — and the engine's default scan order — is the identity on
  that list.  gorm query chains are modelled by the predicate/limit/offset
  they generate; a possible engine failure is injected as an explicit
  `Option String` argument so that the adapters' error handling is visible.
-/

/-- Byte strings stored as record values. -/
abbrev Bytes := List Nat

/-- Nanoseconds per second, for `time.Unix` conversions. -/
def nsPerSec : Int := 1000000000

/-- Go `time.Time.Unix()`: seconds since the epoch of an instant given in
nanoseconds (floor division, all instants of interest are non-negative). -/
def unixSec (t : Int) : Int := t / nsPerSec

/-- Go `time.Unix(sec, 0)` viewed as an instant in nanoseconds. -/
def unixToNs (s : Int) : Int := s * nsPerSec

/-- The `store.Record` type from the repository: key, opaque value, relative TTL and
absolute expiry (0 = the zero `time.Time`). -/
structure Record where
  Key : String
  Value : Bytes
  TTL : Int
  Expiry : Int
deriving Repr, DecidableEq, Inhabited

/-- The `store.Options` struct: store-level configuration. -/
structure Options where
  Addresses : List String := []
  Database : String := ""
  Table : String := ""
  Auth : Bool := false
  Password : String := ""
deriving Repr, DecidableEq, Inhabited

/-- The `store.WriteOptions` struct with zero values as defaults. -/
structure WriteOptions where
  Address : String := ""
  Database : String := ""
  Table : String := ""
  Expiry : Int := 0
  TTL : Int := 0
deriving Repr, DecidableEq, Inhabited

/-- The `store.ReadOptions` struct (its `Prefix` flag is named `Pref` here) with zero values as defaults. -/
structure ReadOptions where
  Address : String := ""
  Database : String := ""
  Table : String := ""
  Pref : Bool := false
  Suffix : Bool := false
  Limit : Nat := 0
  Offset : Nat := 0
deriving Repr, DecidableEq, Inhabited

/-- The `store.DeleteOptions` struct. -/
structure DeleteOptions where
  Database : String := ""
  Table : String := ""
deriving Repr, DecidableEq, Inhabited

/-- The `store.ListOptions` struct (its `Prefix` field is named `Pref` here) with zero values as defaults. -/
structure ListOptions where
  Database : String := ""
  Table : String := ""
  Pref : String := ""
  Suffix : String := ""
  Limit : Nat := 0
  Offset : Nat := 0
deriving Repr, DecidableEq, Inhabited

/-- A Go functional option: a mutation of the options struct. -/
abbrev WriteOption := WriteOptions → WriteOptions
abbrev ReadOption := ReadOptions → ReadOptions
abbrev DeleteOption := DeleteOptions → DeleteOptions
abbrev ListOption := ListOptions → ListOptions

/-- The option-application loop of every operation. -/
def applyOpts {α : Type} (init : α) (opts : List (α → α)) : α :=
  opts.foldl (fun o f => f o) init

/-- Option `store.WithWriteDatabase`. -/
def WithWriteDatabase (database table : String) : WriteOption :=
  fun w => { w with Database := database, Table := table }

/-- Option `store.WithWriteExpiry`. -/
def WithWriteExpiry (t : Int) : WriteOption :=
  fun w => { w with Expiry := t }

/-- Option `store.WithWriteTTL`. -/
def WithWriteTTL (d : Int) : WriteOption :=
  fun w => { w with TTL := d }

/-- Option `store.WithReadDatabase`. -/
def WithReadDatabase (database table : String) : ReadOption :=
  fun r => { r with Database := database, Table := table }

/-- Option `store.WithReadPrefix` (named `WithReadPref` here). -/
def WithReadPref : ReadOption :=
  fun r => { r with Pref := true }

/-- Option `store.WithReadSuffix`. -/
def WithReadSuffix : ReadOption :=
  fun r => { r with Suffix := true }

/-- Option `store.WithReadLimit` (with an explicit offset supplied). -/
def WithReadLimit (limit offset : Nat) : ReadOption :=
  fun r => { r with Limit := limit, Offset := offset }

/-- Option `store.WithDeleteDatabase`. -/
def WithDeleteDatabase (database table : String) : DeleteOption :=
  fun d => { d with Database := database, Table := table }

/-- Option `store.WithListFrom`. -/
def WithListFrom (database table : String) : ListOption :=
  fun l => { l with Database := database, Table := table }

/-- Option `store.WithListPrefix` (named `WithListPref` here). -/
def WithListPref (p : String) : ListOption :=
  fun l => { l with Pref := p }

/-- Option `store.WithListSuffix`. -/
def WithListSuffix (s : String) : ListOption :=
  fun l => { l with Suffix := s }

/-- Option `store.WithListLimit`. -/
def WithListLimit (n : Nat) : ListOption :=
  fun l => { l with Limit := n }

/-- Option `store.WithListOffset`. -/
def WithListOffset (o : Nat) : ListOption :=
  fun l => { l with Offset := o }

/-- Errors surfaced by the adapters: the distinguished `store.ErrNotFound`
sentinel, or an underlying engine error carried verbatim. -/
inductive StoreError where
  | notFound
  | engine (msg : String)
deriving Repr, DecidableEq, Inhabited

/-- Redis glob matching on character lists (`KEYS` patterns): `*` matches any
run of characters, `?` any single character, anything else itself.  The
adapters only build patterns of the shapes `p*`, `*s` and `*`. -/
def globMatchL : List Char → List Char → Bool
  | [], s => s.isEmpty
  | '*' :: ps, s => s.tails.any (fun t => globMatchL ps t)
  | '?' :: ps, s =>
    match s with
    | [] => false
    | _ :: cs => globMatchL ps cs
  | p :: ps, s =>
    match s with
    | [] => false
    | c :: cs => (p == c) && globMatchL ps cs

/-- Redis glob matching on strings. -/
def globMatch (pattern s : String) : Bool :=
  globMatchL pattern.toList s.toList

/-- SQL `LIKE` matching on character lists: `%` matches any run of characters,
`_` any single character.  (Matching is modelled case-sensitively; no claim
exercises collation case folding.) -/
def likeMatchL : List Char → List Char → Bool
  | [], s => s.isEmpty
  | '%' :: ps, s => s.tails.any (fun t => likeMatchL ps t)
  | '_' :: ps, s =>
    match s with
    | [] => false
    | _ :: cs => likeMatchL ps cs
  | p :: ps, s =>
    match s with
    | [] => false
    | c :: cs => (p == c) && likeMatchL ps cs

/-- SQL `LIKE` matching on strings. -/
def likeMatch (pattern s : String) : Bool :=
  likeMatchL pattern.toList s.toList

/-! Redis engine model. -/

/-- One live redis entry: value plus optional absolute expiry deadline. -/
structure RedisEntry where
  value : Bytes
  expireAt : Option Int
deriving Repr, DecidableEq, Inhabited

/-- The redis keyspace: an insertion-ordered association list with unique
keys (a deterministic model of the engine's enumeration order). -/
structure RedisDB where
  entries : List (String × RedisEntry)
deriving Repr, DecidableEq, Inhabited

/-- Is the entry live at instant `now`?  Redis treats a key whose deadline
has been reached as already removed. -/
def RedisEntry.live (e : RedisEntry) (now : Int) : Bool :=
  match e.expireAt with
  | none => true
  | some d => now < d

/-- Command `GET key` at instant `now`: the value, or `none` (redis `Nil`) when the
key is absent or its deadline has passed. -/
def RedisDB.get (db : RedisDB) (now : Int) (k : String) : Option Bytes :=
  match db.entries.find? (fun e => e.fst == k) with
  | none => none
  | some (_, e) => if e.live now then some e.value else none

/-- Command `KEYS pattern` at instant `now`: all live keys matching the glob pattern,
in keyspace order. -/
def RedisDB.keys (db : RedisDB) (now : Int) (pattern : String) : List String :=
  (db.entries.filter (fun e => e.snd.live now && globMatch pattern e.fst)).map (·.fst)

/-- Command `TTL key` (as a go-redis duration, in nanoseconds) for a key known to be
present: the remaining time to the deadline, or -1s when no deadline is set. -/
def RedisDB.ttl (db : RedisDB) (now : Int) (k : String) : Int :=
  match db.entries.find? (fun e => e.fst == k) with
  | none => -2 * nsPerSec
  | some (_, e) =>
    match e.expireAt with
    | none => -nsPerSec
    | some d => d - now

/-- Replace the entry for a key, or append a new one (engine upsert on the
keyspace association list). -/
def redisSetL (k : String) (e : RedisEntry) : List (String × RedisEntry) →
    List (String × RedisEntry)
  | [] => [(k, e)]
  | p :: ps => if p.fst == k then (k, e) :: ps else p :: redisSetL k e ps

/-- Command `SET key value expiration`: upsert.  go-redis only sends an
expiration for a positive duration, so a zero or negative duration stores the
entry without a deadline. -/
def RedisDB.set (db : RedisDB) (now : Int) (k : String) (v : Bytes) (d : Int) : RedisDB :=
  ⟨redisSetL k { value := v, expireAt := if 0 < d then some (now + d) else none } db.entries⟩

/-- Command `DEL key`. -/
def RedisDB.del (db : RedisDB) (k : String) : RedisDB :=
  ⟨db.entries.filter (fun e => e.fst != k)⟩

/-! Redis adapter, type `rkv` of the redis package. -/

/-- The `rkv` store: its options and its redis connection's keyspace. -/
structure Rkv where
  options : Options
  db : RedisDB
deriving Repr, DecidableEq, Inhabited

/-- Append each element unless already present (the `keys` map in `rkv.Read`
deduplicates; we keep first-occurrence order to stay deterministic). -/
def dedupAppend (xs : List String) : List String → List String
  | [] => xs
  | y :: ys => if xs.contains y then dedupAppend xs ys else dedupAppend (xs ++ [y]) ys

/-- The record-building loop at the end of `rkv.Read`: for each storage key,
`GET` it (a `Nil` reply aborts the whole call with `ErrNotFound`), query its
`TTL`, and report the record under the caller's original search key. -/
def rkvCollect (db : RedisDB) (now : Int) (origKey : String) :
    List String → Except StoreError (List Record)
  | [] => .ok []
  | k :: ks =>
    match db.get now k with
    | none => .error .notFound
    | some val =>
      let d := db.ttl now k
      match rkvCollect db now origKey ks with
      | .error e => .error e
      | .ok recs => .ok ({ Key := origKey, Value := val, TTL := d, Expiry := now + d } :: recs)

/-- Method `rkv.Read`: seeds the options with the store-level table, applies the
caller's options, builds the storage key `table ++ key`, gathers the key set
(always containing the exact key, plus `KEYS table++key++"*"` when `Prefix`
and `KEYS "*"++table++key` when `Suffix`), and collects records. -/
def rkvRead (st : Rkv) (now : Int) (key : String) (opts : List ReadOption) :
    Except StoreError (List Record) :=
  let options := applyOpts ({ Table := st.options.Table } : ReadOptions) opts
  let rkey := options.Table ++ key
  let keys0 := [rkey]
  let keys1 := if options.Pref then dedupAppend keys0 (st.db.keys now (rkey ++ "*")) else keys0
  let keys2 := if options.Suffix then dedupAppend keys1 (st.db.keys now ("*" ++ rkey)) else keys1
  rkvCollect st.db now key keys2

/-- Method `rkv.Write`: seeds the options with the store-level table and applies the
caller's options; when at least one option was passed, a non-zero option
`Expiry` rewrites the record's TTL to `time.Since(Expiry) = now - Expiry` and
its Expiry to the option's, then a non-zero option `TTL` overwrites both; the
(possibly mutated) record is `SET` under `table ++ key` with its TTL.
Returns the new keyspace and the mutated record. -/
def rkvWrite (st : Rkv) (now : Int) (record : Record) (opts : List WriteOption) :
    RedisDB × Record :=
  let options := applyOpts ({ Table := st.options.Table } : WriteOptions) opts
  let rec1 :=
    if opts.length > 0 then
      let r1 := if options.Expiry ≠ 0 then
          { record with TTL := now - options.Expiry, Expiry := options.Expiry }
        else record
      if options.TTL ≠ 0 then
        { r1 with TTL := options.TTL, Expiry := now + options.TTL }
      else r1
    else record
  let rkey := options.Table ++ rec1.Key
  (st.db.set now rkey rec1.Value rec1.TTL, rec1)

/-- Method `rkv.Delete`: deletes the exact storage key `table ++ key`. -/
def rkvDelete (st : Rkv) (key : String) (opts : List DeleteOption) : RedisDB :=
  let options := applyOpts ({ Table := st.options.Table } : DeleteOptions) opts
  st.db.del (options.Table ++ key)

/-- Method `rkv.List`: seeds the options with the store-level table, applies the
caller's options, then enumerates `KEYS` with pattern `prefix++"*"` when a
prefix is set, else `"*"++suffix` when a suffix is set, else `"*"`.  The
table, limit and offset fields of the options are never consulted, and the
returned names are raw storage keys. -/
def rkvList (st : Rkv) (now : Int) (opts : List ListOption) : List String :=
  let options := applyOpts ({ Table := st.options.Table } : ListOptions) opts
  let pattern :=
    if options.Pref ≠ "" then options.Pref ++ "*"
    else if options.Suffix ≠ "" then "*" ++ options.Suffix
    else "*"
  st.db.keys now pattern

/-! Mysql engine and adapter, `ormStore` of the mysql package. -/

/-- Type `storeRecord`: a row of the relational table.  `Expiry` is an epoch in
seconds, 0 meaning "never expires". -/
structure StoreRow where
  ID : Int
  Key : String
  Value : Bytes
  Expiry : Int
deriving Repr, DecidableEq, Inhabited

/-- One physical table: rows in ascending-id (insertion) order, plus the
auto-increment counter (starting at 1). -/
structure OrmTable where
  rows : List StoreRow := []
  nextId : Int := 1
deriving Repr, DecidableEq, Inhabited

/-- The relational database: a name-indexed collection of tables. -/
structure OrmDB where
  tables : List (String × OrmTable) := []
deriving Repr, DecidableEq, Inhabited

/-- The table a query chain built with `orm.db.Table(name)` operates on
(an absent table reads as empty, as after `CREATE TABLE IF NOT EXISTS`). -/
def OrmDB.getTable (db : OrmDB) (name : String) : OrmTable :=
  match db.tables.find? (fun t => t.fst == name) with
  | none => {}
  | some t => t.snd

/-- Replace (or create) the named table in the table list. -/
def setTableL (name : String) (tbl : OrmTable) : List (String × OrmTable) →
    List (String × OrmTable)
  | [] => [(name, tbl)]
  | t :: ts => if t.fst == name then (name, tbl) :: ts else t :: setTableL name tbl ts

/-- Replace (or create) the named table. -/
def OrmDB.setTable (db : OrmDB) (name : String) (tbl : OrmTable) : OrmDB :=
  ⟨setTableL name tbl db.tables⟩

/-- The `ormStore`: its options, the configured database/table names, and the
backing database state. -/
structure OrmStore where
  options : Options
  database : String
  table : String
  db : OrmDB
deriving Repr, DecidableEq, Inhabited

/-- The client-side lazy-expiration test in `ormStore.Read`/`List`:
`storeRecord.Expiry != 0 && time.Unix(storeRecord.Expiry, 0).Before(time.Now())`. -/
def rowExpired (now : Int) (r : StoreRow) : Bool :=
  r.Expiry != 0 && unixToNs r.Expiry < now

/-- How `ormStore.Read` re-assembles a `store.Record` from a row: key, value
and absolute expiry (`time.Unix(expiry, 0)`); TTL is left at its zero value. -/
def rowToRecord (r : StoreRow) : Record :=
  { Key := r.Key, Value := r.Value, TTL := 0, Expiry := unixToNs r.Expiry }

/-- The `WHERE` predicate built by `ormStore.Read`: prefix and/or suffix
`LIKE` patterns, or an exact key equality when neither flag is set. -/
def ormReadPred (key : String) (options : ReadOptions) (r : StoreRow) : Bool :=
  if options.Pref then
    likeMatch (key ++ "%") r.Key
      || (options.Suffix && likeMatch ("%" ++ key) r.Key)
  else if options.Suffix then
    likeMatch ("%" ++ key) r.Key
  else
    r.Key == key

/-- Method `ormStore.Read`.  The caller's options are applied to a zero-valued
`ReadOptions` (the operation-level database/table fields are never consulted;
the query always scans `orm.table`).  The engine applies `WHERE`, `ORDER BY
id` and `LIMIT` (the chained `Offset` call's result is discarded by the code,
so no offset reaches the engine); a scan failure is reported as
`store.ErrNotFound`; surviving rows are filtered by `rowExpired` client-side
(expired ones only schedule an asynchronous delete) and re-assembled. -/
def ormRead (failure : Option String) (st : OrmStore) (now : Int) (key : String)
    (opts : List ReadOption) : Except StoreError (List Record) :=
  let options := applyOpts ({} : ReadOptions) opts
  let tbl := st.db.getTable st.table
  let matched := tbl.rows.filter (ormReadPred key options)
  let limited := if options.Limit ≠ 0 then matched.take options.Limit else matched
  match failure with
  | some _ => .error .notFound
  | none => .ok ((limited.filter (fun r => !rowExpired now r)).map rowToRecord)

/-- Method `ormStore.Write`, expiry resolution (seconds): record-level Expiry,
else record-level TTL, else option-level Expiry, else option-level TTL,
else the 0 sentinel. -/
def ormResolveExpiry (now : Int) (r : Record) (options : WriteOptions) : Int :=
  if r.Expiry ≠ 0 then unixSec r.Expiry
  else if r.TTL ≠ 0 then unixSec (now + r.TTL)
  else if options.Expiry ≠ 0 then unixSec options.Expiry
  else if options.TTL ≠ 0 then unixSec (now + options.TTL)
  else 0

/-- Method `ormStore.set`: look up the row id for the key; id 0 (absent) inserts a
fresh row at the auto-increment id, otherwise the row's value and expiry are
updated in place under a row lock. -/
def ormSet (tbl : OrmTable) (r : StoreRow) : OrmTable :=
  match tbl.rows.find? (fun row => row.Key == r.Key) with
  | none =>
    { rows := tbl.rows ++ [{ r with ID := tbl.nextId }], nextId := tbl.nextId + 1 }
  | some row =>
    { tbl with
      rows := tbl.rows.map (fun q =>
        if q.ID == row.ID then { q with Value := r.Value, Expiry := r.Expiry } else q) }

/-- Method `ormStore.Write`: applies the caller's options to zero-valued
`WriteOptions` (their database/table fields are never consulted), builds the
row with the resolved expiry, and upserts it into `orm.table`. -/
def ormWrite (st : OrmStore) (now : Int) (r : Record) (opts : List WriteOption) : OrmStore :=
  let options := applyOpts ({} : WriteOptions) opts
  let row : StoreRow :=
    { ID := 0, Key := r.Key, Value := r.Value, Expiry := ormResolveExpiry now r options }
  { st with db := st.db.setTable st.table (ormSet (st.db.getTable st.table) row) }

/-- Method `ormStore.Delete`: `DELETE FROM orm.table WHERE key = ? LIMIT 1`
(operation options are parsed by the caller signature but unused). -/
def ormDelete (st : OrmStore) (key : String) : OrmStore :=
  let tbl := st.db.getTable st.table
  { st with
    db := st.db.setTable st.table { tbl with rows := tbl.rows.eraseP (fun r => r.Key == key) } }

/-- The `WHERE` predicate built by `ormStore.List`: the prefix/suffix `LIKE`
conditions are chained with `Or`, and the final `session.Or("id")` before
`Find` adds the raw condition `id` — MySQL truthiness `id <> 0` — as one more
`OR` disjunct. -/
def ormListPred (options : ListOptions) (r : StoreRow) : Bool :=
  (if options.Pref ≠ "" then
    likeMatch (options.Pref ++ "%") r.Key
      || (options.Suffix ≠ "" && likeMatch ("%" ++ options.Suffix) r.Key)
  else if options.Suffix ≠ "" then
    likeMatch ("%" ++ options.Suffix) r.Key
  else
    false)
  || r.ID != 0

/-- Method `ormStore.List`: applies the caller's options to zero-valued
`ListOptions` (database/table fields unused; the scan is over `orm.table`),
queries with `ormListPred`, `LIMIT limit OFFSET limit*offset` (both only when
`Limit` is non-zero, the offset only when `Offset` is also non-zero), wraps a
scan failure as an engine error, then filters expired rows client-side and
returns the surviving keys. -/
def ormList (failure : Option String) (st : OrmStore) (now : Int)
    (opts : List ListOption) : Except StoreError (List String) :=
  let options := applyOpts ({} : ListOptions) opts
  let tbl := st.db.getTable st.table
  let matched := tbl.rows.filter (ormListPred options)
  let paged :=
    if options.Limit ≠ 0 then
      if options.Offset ≠ 0 then
        (matched.drop (options.Limit * options.Offset)).take options.Limit
      else matched.take options.Limit
    else matched
  match failure with
  | some e =>
    .error (.engine ("Couldn't find keys " ++ st.database ++ "." ++ st.table ++ ": " ++ e))
  | none => .ok ((paged.filter (fun r => !rowExpired now r)).map (·.Key))

/-- Method `ormStore.configure`, namespace part: default the database and table
names to the `"store"` constants, then verify every rune of the (defaulted)
database name against `unicode.IsLetter` (passed in as `isLetter`), failing
fast before any connection or operation.  On success the configured
`(database, table)` pair is recorded on the store. -/
def ormConfigure (isLetter : Char → Bool) (o : Options) : Except String (String × String) :=
  let database := if o.Database.length = 0 then "store" else o.Database
  let table := if o.Table.length = 0 then "store" else o.Table
  if database.toList.all isLetter then .ok (database, table)
  else .error "store.namespace must only contain letters"

/-! Well-formedness invariants of the engine states. -/

/-- A redis keyspace is well formed when its keys are pairwise distinct. -/
def RedisDB.WF (db : RedisDB) : Prop := (db.entries.map Prod.fst).Nodup

/-- A relational table is well formed for the upsert contract when its keys
are pairwise distinct (the schema declares a unique index on `key`). -/
def OrmTable.UniqKeys (tbl : OrmTable) : Prop :=
  tbl.rows.Pairwise (fun a b => a.Key ≠ b.Key)

/-! Helper lemmas about the model's list plumbing. -/

theorem mem_dedupAppend_left {a : String} {xs ys : List String} (h : a ∈ xs) :
    a ∈ dedupAppend xs ys := by
  induction ys generalizing xs with
  | nil => simpa [dedupAppend] using h
  | cons y ys ih =>
    simp only [dedupAppend]
    split
    · exact ih h
    · exact ih (by simp [h])

theorem mem_of_mem_dedupAppend {a : String} {xs ys : List String}
    (h : a ∈ dedupAppend xs ys) : a ∈ xs ∨ a ∈ ys := by
  induction ys generalizing xs with
  | nil => exact Or.inl (by simpa [dedupAppend] using h)
  | cons y ys ih =>
    simp only [dedupAppend] at h
    split at h
    · rcases ih h with h' | h'
      · exact Or.inl h'
      · exact Or.inr (List.mem_cons_of_mem _ h')
    · rcases ih h with h' | h'
      · rcases List.mem_append.mp h' with h'' | h''
        · exact Or.inl h''
        · simp only [List.mem_singleton] at h''
          exact Or.inr (h'' ▸ List.mem_cons_self _ _)
      · exact Or.inr (List.mem_cons_of_mem _ h')

theorem rkvCollect_ok_key {db : RedisDB} {now : Int} {origKey : String}
    {ks : List String} {recs : List Record}
    (h : rkvCollect db now origKey ks = .ok recs) :
    ∀ rec ∈ recs, rec.Key = origKey := by
  induction ks generalizing recs with
  | nil =>
    simp only [rkvCollect] at h
    cases h
    intro rec hrec
    simp at hrec
  | cons k ks ih =>
    simp only [rkvCollect] at h
    cases hg : db.get now k with
    | none => rw [hg] at h; cases h
    | some val =>
      rw [hg] at h
      cases hc : rkvCollect db now origKey ks with
      | error e => rw [hc] at h; cases h
      | ok recs' =>
        rw [hc] at h
        cases h
        intro rec hrec
        rcases List.mem_cons.mp hrec with h' | h'
        · rw [h']
        · exact ih hc rec h'

theorem rkvCollect_error_iff {db : RedisDB} {now : Int} {origKey : String}
    {ks : List String} :
    ∀ e, rkvCollect db now origKey ks = .error e ↔
      (e = .notFound ∧ ∃ k ∈ ks, db.get now k = none) := by
  induction ks with
  | nil => intro e; simp [rkvCollect]
  | cons k ks ih =>
    intro e
    simp only [rkvCollect]
    cases hg : db.get now k with
    | none =>
      simp only [hg]
      constructor
      · intro h
        injection h with h2
        exact ⟨h2.symm, k, by simp, hg⟩
      · rintro ⟨he, -⟩
        subst he
        rfl
    | some val =>
      cases hc : rkvCollect db now origKey ks with
      | error e' =>
        rcases (ih e').mp hc with ⟨he', k', hk', hn⟩
        subst he'
        simp only [hg, hc]
        constructor
        · intro h
          injection h with h2
          exact ⟨h2.symm, k', List.mem_cons_of_mem _ hk', hn⟩
        · rintro ⟨he, -⟩
          subst he
          rfl
      | ok recs =>
        simp only [hg, hc]
        constructor
        · intro h; cases h
        · rintro ⟨he, k', hk', hn⟩
          rcases List.mem_cons.mp hk' with h' | h'
          · subst h'; rw [hg] at hn; cases hn
          · have hcc := (ih e).mpr ⟨he, k', h', hn⟩
            rw [hc] at hcc; cases hcc

theorem rkvCollect_ok_of_all_some {db : RedisDB} {now : Int} {origKey : String}
    {ks : List String} (h : ∀ k ∈ ks, db.get now k ≠ none) :
    ∃ recs, rkvCollect db now origKey ks = .ok recs := by
  induction ks with
  | nil => exact ⟨[], rfl⟩
  | cons k ks ih =>
    rcases ih (fun k' hk' => h k' (by simp [hk'])) with ⟨recs, hrecs⟩
    cases hg : db.get now k with
    | none => exact absurd hg (h k (by simp))
    | some val =>
      refine ⟨{ Key := origKey, Value := val, TTL := db.ttl now k, Expiry := now + db.ttl now k } :: recs, ?_⟩
      simp only [rkvCollect, hg, hrecs]

theorem RedisDB.get_of_mem_keys {db : RedisDB} (hwf : db.WF) {now : Int}
    {pat k : String} (h : k ∈ db.keys now pat) : ∃ v, db.get now k = some v := by
  simp only [RedisDB.keys, List.mem_map] at h
  rcases h with ⟨⟨pk, pe⟩, hp, hpk⟩
  simp only at hpk
  subst hpk
  have hpmem : (pk, pe) ∈ db.entries := List.mem_of_mem_filter hp
  have hpcond := List.of_mem_filter hp
  rw [Bool.and_eq_true] at hpcond
  have hlive : pe.live now = true := hpcond.1
  cases hq : db.entries.find? (fun e => e.fst == pk) with
  | none =>
    exfalso
    have := List.find?_eq_none.mp hq _ hpmem
    simp at this
  | some q =>
    have hqmem : q ∈ db.entries := List.mem_of_find?_eq_some hq
    have hqk : q.fst = pk := by simpa using List.find?_some hq
    have hqp : q = (pk, pe) := List.inj_on_of_nodup_map hwf hqmem hpmem (by rw [hqk])
    subst hqp
    refine ⟨pe.value, ?_⟩
    simp only [RedisDB.get, hq, hlive, if_true]

theorem find?_redisSetL (k : String) (e : RedisEntry) (l : List (String × RedisEntry)) :
    (redisSetL k e l).find? (fun p => p.fst == k) = some (k, e) := by
  induction l with
  | nil => simp [redisSetL, List.find?]
  | cons p ps ih =>
    simp only [redisSetL]
    split
    · simp [List.find?]
    · rename_i hpk
      rw [List.find?]
      simp only [hpk]
      exact ih

theorem find?_setTableL (name : String) (tbl : OrmTable) (l : List (String × OrmTable)) :
    (setTableL name tbl l).find? (fun t => t.fst == name) = some (name, tbl) := by
  induction l with
  | nil => simp [setTableL, List.find?]
  | cons p ps ih =>
    simp only [setTableL]
    split
    · simp [List.find?]
    · rename_i hpk
      rw [List.find?]
      simp only [hpk]
      exact ih

theorem OrmDB.getTable_setTable (db : OrmDB) (name : String) (tbl : OrmTable) :
    (db.setTable name tbl).getTable name = tbl := by
  simp [OrmDB.getTable, OrmDB.setTable, find?_setTableL]

theorem filter_key_eq_of_find {rows : List StoreRow} {k : String} {q : StoreRow}
    (hU : rows.Pairwise (fun a b => a.Key ≠ b.Key))
    (h : rows.find? (fun row => row.Key == k) = some q) :
    rows.filter (fun row => row.Key == k) = [q] := by
  induction rows with
  | nil => cases h
  | cons r rs ih =>
    rcases List.pairwise_cons.mp hU with ⟨hhead, htail⟩
    rw [List.find?] at h
    by_cases hr : (r.Key == k) = true
    · rw [hr] at h
      injection h with h2
      subst h2
      have hnil : rs.filter (fun row => row.Key == k) = [] :=
        List.filter_eq_nil_iff.mpr (fun b hb => by
          have hk : r.Key = k := by simpa using hr
          have hbk : b.Key ≠ k := fun hcontra => hhead b hb (hk.trans hcontra.symm)
          simpa using hbk)
      simp [List.filter_cons, hr, hnil]
    · rw [Bool.not_eq_true] at hr
      rw [hr] at h
      simp only [List.filter_cons, hr, if_false, Bool.false_eq_true, ite_false]
      exact ih htail h

theorem ormSet_filter_key (tbl : OrmTable) (row : StoreRow) (hU : tbl.UniqKeys) :
    ∃ idv : Int, (ormSet tbl row).rows.filter (fun q => q.Key == row.Key)
      = [{ ID := idv, Key := row.Key, Value := row.Value, Expiry := row.Expiry }] := by
  cases hf : tbl.rows.find? (fun r => r.Key == row.Key) with
  | none =>
    refine ⟨tbl.nextId, ?_⟩
    simp only [ormSet, hf]
    rw [List.filter_append]
    have h1 : tbl.rows.filter (fun q => q.Key == row.Key) = [] :=
      List.filter_eq_nil_iff.mpr (fun a ha => by
        have := List.find?_eq_none.mp hf a ha
        simpa using this)
    rw [h1]
    simp
  | some q =>
    refine ⟨q.ID, ?_⟩
    simp only [ormSet, hf]
    rw [List.filter_map]
    have hcomp : ((fun p : StoreRow => p.Key == row.Key) ∘
        (fun q1 : StoreRow => if q1.ID == q.ID then { q1 with Value := row.Value, Expiry := row.Expiry } else q1))
        = fun q1 : StoreRow => q1.Key == row.Key := by
      funext q1
      simp only [Function.comp]
      split <;> rfl
    rw [hcomp, filter_key_eq_of_find hU hf]
    have hqk : q.Key = row.Key := by simpa using List.find?_some hf
    simp only [List.map_cons, List.map_nil]
    rw [if_pos (by simp)]
    cases q
    simp_all

theorem RedisDB.get_set_self (db : RedisDB) (now now2 : Int) (k : String) (v : Bytes) (d : Int) :
    (db.set now k v d).get now2 k
      = if 0 < d then (if now2 < now + d then some v else none) else some v := by
  simp only [RedisDB.get, RedisDB.set, find?_redisSetL]
  by_cases hd : 0 < d
  · simp [hd, RedisEntry.live]
  · simp [hd, RedisEntry.live]

theorem RedisDB.ttl_set_self (db : RedisDB) (now now2 : Int) (k : String) (v : Bytes) (d : Int) :
    (db.set now k v d).ttl now2 k = if 0 < d then (now + d) - now2 else -nsPerSec := by
  simp only [RedisDB.ttl, RedisDB.set, find?_redisSetL]
  by_cases hd : 0 < d <;> simp [hd]

theorem rkvWrite_snd (st : Rkv) (now : Int) (r : Record) (wopts : List WriteOption) :
    (rkvWrite st now r wopts).snd.Key = r.Key ∧ (rkvWrite st now r wopts).snd.Value = r.Value := by
  simp only [rkvWrite]
  split
  · split <;> split <;> exact ⟨rfl, rfl⟩
  · exact ⟨rfl, rfl⟩

theorem rkvWrite_fst (st : Rkv) (now : Int) (r : Record) (wopts : List WriteOption) :
    (rkvWrite st now r wopts).fst
      = st.db.set now
          ((applyOpts ({ Table := st.options.Table } : WriteOptions) wopts).Table
            ++ (rkvWrite st now r wopts).snd.Key)
          ((rkvWrite st now r wopts).snd.Value) ((rkvWrite st now r wopts).snd.TTL) := rfl

/-! Concrete fixtures used by counterexamples and witnesses. -/

/-- A one-byte value entry with no expiry. -/
def exEntry : RedisEntry := { value := [1], expireAt := none }

/-- A redis store holding the keys a1, 1a, b1 (empty table prefix). -/
def exRkv3 : Rkv :=
  { options := {}, db := ⟨[("a1", exEntry), ("1a", exEntry), ("b1", exEntry)]⟩ }

/-- A redis store holding five keys k0 .. k4. -/
def exRkv5 : Rkv :=
  { options := {},
    db := ⟨[("k0", exEntry), ("k1", exEntry), ("k2", exEntry), ("k3", exEntry), ("k4", exEntry)]⟩ }

/-- A redis store with table prefix t and two keys sharing the prefix ta. -/
def exRkvT : Rkv :=
  { options := { Table := "t" },
    db := ⟨[("ta", exEntry), ("tab", { value := [2], expireAt := none })]⟩ }

/-- A row whose expiry is epoch second 10. -/
def exRowDead : StoreRow := { ID := 1, Key := "a", Value := [1], Expiry := 10 }

/-- A row that never expires. -/
def exRowLive : StoreRow := { ID := 2, Key := "b", Value := [2], Expiry := 0 }

/-- A relational store over table t holding the two rows above. -/
def exOrm : OrmStore :=
  { options := {}, database := "store", table := "t",
    db := ⟨[("t", { rows := [exRowDead, exRowLive], nextId := 3 })]⟩ }

/-- A relational store configured on table t1, with a record under t1 and an
empty table t2. -/
def exOrm2 : OrmStore :=
  { options := { Table := "t1" }, database := "store", table := "t1",
    db := ⟨[("t1", { rows := [{ ID := 1, Key := "k", Value := [7], Expiry := 0 }], nextId := 2 }),
           ("t2", { rows := [], nextId := 1 })]⟩ }

/-! Claim C9. -/

/-- C9: the relational adapter's configure step fails with the namespace
configuration error whenever the (non-empty) database name contains a
character that is not a letter, before any connection is attempted; when the
name consists only of letters, validation passes and the configured database
is the given name. -/
theorem C9_configure_letter_validation (isLetter : Char → Bool) (o : Options)
    (hne : o.Database.length ≠ 0) :
    ((∃ c ∈ o.Database.toList, isLetter c = false) →
      ormConfigure isLetter o = .error "store.namespace must only contain letters")
    ∧ ((∀ c ∈ o.Database.toList, isLetter c = true) →
      ormConfigure isLetter o
        = .ok (o.Database, if o.Table.length = 0 then "store" else o.Table)) := by
  constructor
  · rintro ⟨c, hc, hcl⟩
    have hnotall : ¬ (o.Database.toList.all isLetter = true) := by
      rw [List.all_eq_true]
      intro hall
      have := hall c hc
      rw [hcl] at this
      cases this
    simp only [ormConfigure]
    rw [if_neg hne, if_neg hnotall]
  · intro hall
    simp only [ormConfigure]
    rw [if_neg hne, if_pos (List.all_eq_true.mpr hall)]

/-- Witness for C9 at concrete inputs: database name store1 is rejected,
mydb is accepted. -/
theorem C9_configure_letter_validation_witness :
    ormConfigure Char.isAlpha { Database := "store1" }
        = .error "store.namespace must only contain letters"
    ∧ ormConfigure Char.isAlpha { Database := "mydb", Table := "tbl" } = .ok ("mydb", "tbl") :=
  ⟨(C9_configure_letter_validation Char.isAlpha { Database := "store1" } (by decide)).1
      (by decide),
   (C9_configure_letter_validation Char.isAlpha { Database := "mydb", Table := "tbl" }
      (by decide)).2 (by decide)⟩

/-! Claim C10. -/

/-- C10: every record returned by the cache adapter's Read carries the
caller's original search key in its Key field — even when the prefix/suffix
patterns matched several distinct storage keys, so the matched keys are not
recoverable from the result. -/
theorem C10_read_reports_search_key (st : Rkv) (now : Int) (key : String)
    (opts : List ReadOption) (recs : List Record)
    (h : rkvRead st now key opts = .ok recs) :
    ∀ rec ∈ recs, rec.Key = key :=
  rkvCollect_ok_key h

/-- Witness for C10: a prefix Read over the exRkvT store matches the two
storage keys ta and tab; the theorem applied to the second returned record
shows it reports the original search key a. -/
theorem C10_read_reports_search_key_witness :
    ({ Key := "a", Value := [2], TTL := -nsPerSec, Expiry := -nsPerSec } : Record).Key = "a" :=
  C10_read_reports_search_key exRkvT 0 "a" [WithReadPref]
    [{ Key := "a", Value := [1], TTL := -nsPerSec, Expiry := -nsPerSec },
     { Key := "a", Value := [2], TTL := -nsPerSec, Expiry := -nsPerSec }]
    (by rfl) _ (by decide)

/-! Claim C3. -/

/-- C3 counterexample: over the cache adapter with stored keys a1, 1a, b1,
List with prefix a and suffix 1 both set returns only the prefix matches
[a1]; the suffix match 1a is missing, refuting the union claim. -/
theorem C3_counterexample :
    rkvList exRkv3 0 [WithListPref "a", WithListSuffix "1"] = ["a1"]
    ∧ "1a" ∉ rkvList exRkv3 0 [WithListPref "a", WithListSuffix "1"] :=
  ⟨by decide, by decide⟩

/-- C3 (amended): when both a prefix and a suffix are set on List, the cache
adapter ignores the suffix and enumerates only the prefix pattern, while the
relational adapter's query — because of the stray Or id disjunct — matches
every row, returning all non-expired keys of the table regardless of either
filter.  Only the two Read paths union prefix and suffix matches. -/
theorem C3_amended (st : Rkv) (ost : OrmStore) (now : Int) (p s : String)
    (hp : p ≠ "")
    (hid : ∀ row ∈ (ost.db.getTable ost.table).rows, row.ID ≠ 0) :
    rkvList st now [WithListPref p, WithListSuffix s] = st.db.keys now (p ++ "*")
    ∧ ormList none ost now [WithListPref p, WithListSuffix s]
        = .ok (((ost.db.getTable ost.table).rows.filter
            (fun r => !rowExpired now r)).map (fun r => r.Key)) := by
  constructor
  · simp only [rkvList, applyOpts, List.foldl, WithListPref, WithListSuffix]
    rw [if_pos hp]
  · simp only [ormList, applyOpts, List.foldl, WithListPref, WithListSuffix]
    have hpred : ∀ r ∈ (ost.db.getTable ost.table).rows,
        ormListPred { Database := "", Table := "", Pref := p, Suffix := s, Limit := 0, Offset := 0 } r = true := by
      intro r hr
      simp [ormListPred, bne_iff_ne, hid r hr]
    rw [List.filter_eq_self.mpr hpred]
    simp

/-- Witness for C3 (amended) at concrete inputs: prefix a, suffix 1 over the
exRkv3 cache keys gives the bare prefix matches, and over the exOrm table
gives every live key. -/
theorem C3_amended_witness :
    rkvList exRkv3 (unixToNs 100) [WithListPref "a", WithListSuffix "1"]
        = exRkv3.db.keys (unixToNs 100) ("a" ++ "*")
    ∧ ormList none exOrm (unixToNs 100) [WithListPref "a", WithListSuffix "1"]
        = .ok (((exOrm.db.getTable exOrm.table).rows.filter
            (fun r => !rowExpired (unixToNs 100) r)).map (fun r => r.Key)) :=
  C3_amended exRkv3 exOrm (unixToNs 100) "a" "1" (by decide) (by decide)

/-! Claim C7. -/

/-- A relational store with five live rows k0 .. k4 in insertion order. -/
def exOrm5 : OrmStore :=
  { options := {}, database := "store", table := "t",
    db := ⟨[("t", { rows :=
      [{ ID := 1, Key := "k0", Value := [0], Expiry := 0 },
       { ID := 2, Key := "k1", Value := [1], Expiry := 0 },
       { ID := 3, Key := "k2", Value := [2], Expiry := 0 },
       { ID := 4, Key := "k3", Value := [3], Expiry := 0 },
       { ID := 5, Key := "k4", Value := [4], Expiry := 0 }], nextId := 6 })]⟩ }

/-- C7 counterexample: the cache adapter's List never reads Limit or Offset,
so over five non-expired keys a List with Limit 2 and Offset 1 returns all
five keys instead of exactly the keys at positions 2 and 3. -/
theorem C7_counterexample :
    rkvList exRkv5 0 [WithListLimit 2, WithListOffset 1] = ["k0", "k1", "k2", "k3", "k4"]
    ∧ rkvList exRkv5 0 [WithListLimit 2, WithListOffset 1] ≠ ["k2", "k3"] :=
  ⟨by decide, by decide⟩

/-- C7 (amended): the relational adapter's List with Limit 2 and Offset 1
returns exactly the keys at positions 2 and 3 of insertion order (the engine
offset is Limit times Offset) whenever every row is live with a non-zero id,
and being a pure query it is stable across repeated calls; the cache adapter
ignores Limit and Offset entirely and behaves as a List with no options. -/
theorem C7_pagination (st : Rkv) (ost : OrmStore) (now : Int)
    (hid : ∀ row ∈ (ost.db.getTable ost.table).rows, row.ID ≠ 0)
    (hlive : ∀ row ∈ (ost.db.getTable ost.table).rows, rowExpired now row = false) :
    ormList none ost now [WithListLimit 2, WithListOffset 1]
      = .ok ((((ost.db.getTable ost.table).rows.drop 2).take 2).map (fun r => r.Key))
    ∧ rkvList st now [WithListLimit 2, WithListOffset 1] = rkvList st now [] := by
  constructor
  · simp only [ormList, applyOpts, List.foldl, WithListLimit, WithListOffset]
    have hpred : ∀ r ∈ (ost.db.getTable ost.table).rows,
        ormListPred { Database := "", Table := "", Pref := "", Suffix := "", Limit := 2, Offset := 1 } r = true := by
      intro r hr
      simp [ormListPred, bne_iff_ne, hid r hr]
    rw [List.filter_eq_self.mpr hpred]
    have htake : (((ost.db.getTable ost.table).rows.drop 2).take 2).filter
        (fun r => !rowExpired now r) = ((ost.db.getTable ost.table).rows.drop 2).take 2 :=
      List.filter_eq_self.mpr (fun r hr => by
        have hmem : r ∈ (ost.db.getTable ost.table).rows :=
          List.mem_of_mem_drop (List.mem_of_mem_take hr)
        simp [hlive r hmem])
    simp [htake]
  · simp [rkvList, applyOpts, WithListLimit, WithListOffset]

/-- Witness for C7 (amended) at concrete inputs: five live rows and five live
cache keys. -/
theorem C7_pagination_witness :
    ormList none exOrm5 0 [WithListLimit 2, WithListOffset 1]
      = .ok ((((exOrm5.db.getTable exOrm5.table).rows.drop 2).take 2).map (fun r => r.Key))
    ∧ rkvList exRkv5 0 [WithListLimit 2, WithListOffset 1] = rkvList exRkv5 0 [] :=
  C7_pagination exRkv5 exOrm5 0 (by decide) (by decide)

/-! Claim C1. -/

/-- C1 counterexample: on the relational adapter a record carrying TTL 5s,
written at epoch second 1000 with an operation-level Expiry of epoch second
1100, is stored with expiry 1005 — now plus the record TTL — not with the
operation Expiry 1100. -/
theorem C1_counterexample :
    ((ormWrite exOrm (unixToNs 1000)
        { Key := "k", Value := [1], TTL := 5 * nsPerSec, Expiry := 0 }
        [WithWriteExpiry (unixToNs 1100)]).db.getTable "t").rows.filter
        (fun q => q.Key == "k")
      = [{ ID := 3, Key := "k", Value := [1], Expiry := 1005 }]
    ∧ (1005 : Int) ≠ unixSec (unixToNs 1100) :=
  ⟨by decide, by decide⟩

/-- C1 (amended): when the record carries a non-zero TTL and the write
options a non-zero Expiry, the relational adapter resolves now plus the
record TTL — the record-level TTL wins over both operation-level fields —
while the cache adapter honours the operation options on the record it
mutates: the operation Expiry is written to the record's Expiry field with
its TTL rewritten to now minus that Expiry (non-positive for a future
Expiry, so no engine deadline is stored), and a non-zero operation TTL
overrides both with expiry now plus that TTL. -/
theorem C1_ttl_precedence (st : Rkv) (now e ttl : Int) (r : Record)
    (hE : r.Expiry = 0) (hT : r.TTL ≠ 0) (he : e ≠ 0) (ht : ttl ≠ 0) :
    ormResolveExpiry now r (applyOpts ({} : WriteOptions) [WithWriteExpiry e])
        = unixSec (now + r.TTL)
    ∧ ormResolveExpiry now r
        (applyOpts ({} : WriteOptions) [WithWriteExpiry e, WithWriteTTL ttl])
        = unixSec (now + r.TTL)
    ∧ (rkvWrite st now r [WithWriteExpiry e]).snd.Expiry = e
    ∧ (rkvWrite st now r [WithWriteExpiry e]).snd.TTL = now - e
    ∧ (rkvWrite st now r [WithWriteExpiry e, WithWriteTTL ttl]).snd.Expiry = now + ttl := by
  refine ⟨?_, ?_, ?_, ?_, ?_⟩
  · simp [ormResolveExpiry, applyOpts, WithWriteExpiry, hE, hT]
  · simp [ormResolveExpiry, applyOpts, WithWriteExpiry, WithWriteTTL, hE, hT]
  · simp [rkvWrite, applyOpts, WithWriteExpiry, he]
  · simp [rkvWrite, applyOpts, WithWriteExpiry, he]
  · simp [rkvWrite, applyOpts, WithWriteExpiry, WithWriteTTL, he, ht]

/-- Witness for C1 (amended) at concrete inputs: record TTL 5s, operation
Expiry epoch 1100, operation TTL 7s, now epoch 1000. -/
theorem C1_ttl_precedence_witness :
    ormResolveExpiry (unixToNs 1000)
        { Key := "k", Value := [1], TTL := 5 * nsPerSec, Expiry := 0 }
        (applyOpts ({} : WriteOptions) [WithWriteExpiry (unixToNs 1100)])
        = unixSec (unixToNs 1000 + ({ Key := "k", Value := [1], TTL := 5 * nsPerSec, Expiry := 0 } : Record).TTL)
    ∧ ormResolveExpiry (unixToNs 1000)
        { Key := "k", Value := [1], TTL := 5 * nsPerSec, Expiry := 0 }
        (applyOpts ({} : WriteOptions) [WithWriteExpiry (unixToNs 1100), WithWriteTTL (7 * nsPerSec)])
        = unixSec (unixToNs 1000 + ({ Key := "k", Value := [1], TTL := 5 * nsPerSec, Expiry := 0 } : Record).TTL)
    ∧ (rkvWrite exRkv3 (unixToNs 1000)
        { Key := "k", Value := [1], TTL := 5 * nsPerSec, Expiry := 0 }
        [WithWriteExpiry (unixToNs 1100)]).snd.Expiry = unixToNs 1100
    ∧ (rkvWrite exRkv3 (unixToNs 1000)
        { Key := "k", Value := [1], TTL := 5 * nsPerSec, Expiry := 0 }
        [WithWriteExpiry (unixToNs 1100)]).snd.TTL = unixToNs 1000 - unixToNs 1100
    ∧ (rkvWrite exRkv3 (unixToNs 1000)
        { Key := "k", Value := [1], TTL := 5 * nsPerSec, Expiry := 0 }
        [WithWriteExpiry (unixToNs 1100), WithWriteTTL (7 * nsPerSec)]).snd.Expiry
        = unixToNs 1000 + 7 * nsPerSec :=
  C1_ttl_precedence exRkv3 (unixToNs 1000) (unixToNs 1100) (7 * nsPerSec)
    { Key := "k", Value := [1], TTL := 5 * nsPerSec, Expiry := 0 }
    (by decide) (by decide) (by decide) (by decide)

/-! Claim C2. -/

/-- Soundness of the relational Read with respect to lazy expiration: every
returned record is the image of a stored row that is not strictly expired. -/
theorem ormRead_ok_sound {st : OrmStore} {now : Int} {key : String}
    {ropts : List ReadOption} {recs : List Record}
    (hr : ormRead none st now key ropts = .ok recs) :
    ∀ rec ∈ recs, ∃ row ∈ (st.db.getTable st.table).rows,
      rowToRecord row = rec ∧ rowExpired now row = false := by
  intro rec hrec
  simp only [ormRead] at hr
  rw [← Except.ok.inj hr] at hrec
  rcases List.mem_map.mp hrec with ⟨r', hr', hconv⟩
  have hlive := List.of_mem_filter hr'
  have hr'' := List.mem_of_mem_filter hr'
  have hrow : r' ∈ (st.db.getTable st.table).rows := by
    split at hr''
    · exact List.mem_of_mem_filter (List.mem_of_mem_take hr'')
    · exact List.mem_of_mem_filter hr''
  refine ⟨r', hrow, hconv, ?_⟩
  simpa using hlive

/-- Soundness of the relational List with respect to lazy expiration: every
returned key belongs to a stored row that is not strictly expired. -/
theorem ormList_ok_sound {st : OrmStore} {now : Int}
    {lopts : List ListOption} {ks : List String}
    (hl : ormList none st now lopts = .ok ks) :
    ∀ k ∈ ks, ∃ row ∈ (st.db.getTable st.table).rows,
      row.Key = k ∧ rowExpired now row = false := by
  intro k hk
  simp only [ormList] at hl
  rw [← Except.ok.inj hl] at hk
  rcases List.mem_map.mp hk with ⟨r', hr', hkey⟩
  have hlive := List.of_mem_filter hr'
  have hr'' := List.mem_of_mem_filter hr'
  have hrow : r' ∈ (st.db.getTable st.table).rows := by
    split at hr''
    · split at hr''
      · exact List.mem_of_mem_filter (List.mem_of_mem_drop (List.mem_of_mem_take hr''))
      · exact List.mem_of_mem_filter (List.mem_of_mem_take hr'')
    · exact List.mem_of_mem_filter hr''
  exact ⟨r', hrow, hkey, by simpa using hlive⟩

/-- C2 counterexample: the expiry test of the relational adapter is strict —
a row whose expiry equals the current instant (at-or-before now) still exists
physically and is returned by Read and listed by List. -/
theorem C2_counterexample :
    exRowDead ∈ (exOrm.db.getTable exOrm.table).rows
    ∧ exRowDead.Expiry ≠ 0
    ∧ unixToNs exRowDead.Expiry ≤ unixToNs 10
    ∧ ormRead none exOrm (unixToNs 10) "a" [] = .ok [rowToRecord exRowDead]
    ∧ ormList none exOrm (unixToNs 10) [] = .ok ["a", "b"] :=
  ⟨by decide, by decide, by decide, by rfl, by rfl⟩

/-- C2 (amended): a stored row whose resolved expiry is non-zero and strictly
before now is never surfaced: every record returned by the relational Read
and every key returned by the relational List comes from a physically stored
row that is not strictly expired (strictly expired rows only trigger the
asynchronous delete); a row whose expiry equals now exactly is still
returned. -/
theorem C2_lazy_expiration (st : OrmStore) (now : Int) (key : String)
    (ropts : List ReadOption) (lopts : List ListOption)
    (recs : List Record) (ks : List String)
    (hr : ormRead none st now key ropts = .ok recs)
    (hl : ormList none st now lopts = .ok ks) :
    (∀ rec ∈ recs, ∃ row ∈ (st.db.getTable st.table).rows,
      rowToRecord row = rec ∧ rowExpired now row = false)
    ∧ (∀ k ∈ ks, ∃ row ∈ (st.db.getTable st.table).rows,
      row.Key = k ∧ rowExpired now row = false) :=
  ⟨ormRead_ok_sound hr, ormList_ok_sound hl⟩

/-- Witness for C2 (amended): at epoch second 100 over the exOrm table the
Read of b returns the live record only and List lists only b. -/
theorem C2_lazy_expiration_witness :
    (∀ rec ∈ [rowToRecord exRowLive], ∃ row ∈ (exOrm.db.getTable exOrm.table).rows,
      rowToRecord row = rec ∧ rowExpired (unixToNs 100) row = false)
    ∧ (∀ k ∈ ["b"], ∃ row ∈ (exOrm.db.getTable exOrm.table).rows,
      row.Key = k ∧ rowExpired (unixToNs 100) row = false) :=
  C2_lazy_expiration exOrm (unixToNs 100) "b" [] [] [rowToRecord exRowLive] ["b"]
    (by rfl) (by rfl)

/-! Claim C4. -/

/-- The claim's reading of List pagination, written from the spec's words:
filter out expired rows first, then apply the engine pagination (limit, with
offset slots of width limit), then project keys. -/
def listSpecFilterFirst (tbl : OrmTable) (now : Int) (options : ListOptions) : List String :=
  let live := (tbl.rows.filter (ormListPred options)).filter (fun r => !rowExpired now r)
  let paged :=
    if options.Limit ≠ 0 then
      if options.Offset ≠ 0 then
        (live.drop (options.Limit * options.Offset)).take options.Limit
      else live.take options.Limit
    else live
  paged.map (fun r => r.Key)

/-- The pipeline the code actually performs: paginate the matched rows in
the engine first, then drop expired rows from the returned page. -/
def listSpecPaginateFirst (tbl : OrmTable) (now : Int) (options : ListOptions) : List String :=
  let matched := tbl.rows.filter (ormListPred options)
  let paged :=
    if options.Limit ≠ 0 then
      if options.Offset ≠ 0 then
        (matched.drop (options.Limit * options.Offset)).take options.Limit
      else matched.take options.Limit
    else matched
  (paged.filter (fun r => !rowExpired now r)).map (fun r => r.Key)

/-- C4 counterexample: over a table whose first row is expired and second
row live, List with Limit 1 returns no keys — the expired row consumed the
only limit slot — whereas filtering expired rows first and then paginating
would return the live key b. -/
theorem C4_counterexample :
    ormList none exOrm (unixToNs 100) [WithListLimit 1] = .ok []
    ∧ listSpecFilterFirst (exOrm.db.getTable "t") (unixToNs 100)
        (applyOpts ({} : ListOptions) [WithListLimit 1]) = ["b"] :=
  ⟨by rfl, by decide⟩

/-- C4 (amended): pagination is applied by the engine before the client-side
expiry filter, so an expired row does count toward Limit and does consume
offset width: the relational List computes paginate-then-filter, not the
claim's filter-then-paginate; moreover the relational Read discards its
Offset entirely (the chained offset call's result is unused) and the cache
adapter's Read and List never consult Limit or Offset at all. -/
theorem C4_pagination_before_filter (st : Rkv) (ost : OrmStore) (now : Int)
    (key : String) (lopts : List ListOption) (L O : Nat) :
    ormList none ost now lopts
      = .ok (listSpecPaginateFirst (ost.db.getTable ost.table) now
          (applyOpts ({} : ListOptions) lopts))
    ∧ ormRead none ost now key [WithReadLimit L O] = ormRead none ost now key [WithReadLimit L 0]
    ∧ rkvRead st now key [WithReadLimit L O] = rkvRead st now key []
    ∧ rkvList st now [WithListLimit L, WithListOffset O] = rkvList st now [] :=
  ⟨rfl, rfl, rfl, rfl⟩

/-! Claim C5. -/

/-- Auxiliary for the cache Read error analysis: the collect loop over the
exact key plus any pattern-enumerated keys fails exactly when the exact key
misses, since enumerated keys are always live. -/
theorem rkvRead_error_iff_aux (db : RedisDB) (hwf : db.WF) (now : Int)
    (origKey rkey : String) (pfx sfx : Bool) :
    rkvCollect db now origKey
      (if sfx then
        dedupAppend (if pfx then dedupAppend [rkey] (db.keys now (rkey ++ "*")) else [rkey])
          (db.keys now ("*" ++ rkey))
      else (if pfx then dedupAppend [rkey] (db.keys now (rkey ++ "*")) else [rkey]))
      = .error .notFound
    ↔ db.get now rkey = none := by
  rw [rkvCollect_error_iff StoreError.notFound]
  constructor
  · rintro ⟨-, k', hk', hn⟩
    have hk'' : k' = rkey ∨ k' ∈ db.keys now (rkey ++ "*") ∨ k' ∈ db.keys now ("*" ++ rkey) := by
      cases hsf : sfx <;> cases hpf : pfx <;> simp only [hsf, hpf] at hk' <;>
        simp only [Bool.false_eq_true, if_false, if_true] at hk'
      · exact Or.inl (by simpa using hk')
      · rcases mem_of_mem_dedupAppend hk' with h1 | h1
        · exact Or.inl (by simpa using h1)
        · exact Or.inr (Or.inl h1)
      · rcases mem_of_mem_dedupAppend hk' with h1 | h1
        · exact Or.inl (by simpa using h1)
        · exact Or.inr (Or.inr h1)
      · rcases mem_of_mem_dedupAppend hk' with h1 | h1
        · rcases mem_of_mem_dedupAppend h1 with h2 | h2
          · exact Or.inl (by simpa using h2)
          · exact Or.inr (Or.inl h2)
        · exact Or.inr (Or.inr h1)
    rcases hk'' with h | h | h
    · rwa [h] at hn
    · rcases RedisDB.get_of_mem_keys hwf h with ⟨v, hv⟩
      rw [hv] at hn
      cases hn
    · rcases RedisDB.get_of_mem_keys hwf h with ⟨v, hv⟩
      rw [hv] at hn
      cases hn
  · intro hget
    refine ⟨rfl, rkey, ?_, hget⟩
    cases hsf : sfx <;> cases hpf : pfx <;>
      simp only [Bool.false_eq_true, if_false, if_true]
    · simp
    · exact mem_dedupAppend_left (by simp)
    · exact mem_dedupAppend_left (by simp)
    · exact mem_dedupAppend_left (mem_dedupAppend_left (by simp))

/-- The cache Read fails — necessarily with NotFound — exactly when the exact
storage key misses, whatever prefix/suffix matches exist. -/
theorem rkvRead_error_iff (st : Rkv) (hwf : st.db.WF) (now : Int) (key : String)
    (opts : List ReadOption) :
    rkvRead st now key opts = .error .notFound ↔
      st.db.get now
        ((applyOpts ({ Table := st.options.Table } : ReadOptions) opts).Table ++ key) = none :=
  rkvRead_error_iff_aux st.db hwf now key
    ((applyOpts ({ Table := st.options.Table } : ReadOptions) opts).Table ++ key)
    (applyOpts ({ Table := st.options.Table } : ReadOptions) opts).Pref
    (applyOpts ({ Table := st.options.Table } : ReadOptions) opts).Suffix

/-- C5 counterexample: the relational Read returns the NotFound sentinel on
an engine failure (not the engine error), and a nil error with an empty
result when zero records match (not NotFound). -/
theorem C5_counterexample :
    ormRead (some "dial tcp: connection refused") exOrm (unixToNs 100) "zz" []
        = .error .notFound
    ∧ ormRead none exOrm (unixToNs 100) "zz" [] = .ok [] :=
  ⟨by rfl, by rfl⟩

/-- C5 (amended): the relational Read returns NotFound exactly on engine
failure and an empty nil-error result on zero matches, while its List wraps
an engine failure as an engine error; the cache Read fails — always with
NotFound — exactly when the exact storage key is absent or expired, even if
prefix or suffix matches exist. -/
theorem C5_notfound_semantics (st : Rkv) (ost : OrmStore) (now : Int)
    (key msg : String) (ropts : List ReadOption) (lopts : List ListOption)
    (hwf : st.db.WF)
    (hnone : ∀ row ∈ (ost.db.getTable ost.table).rows,
      ormReadPred key (applyOpts ({} : ReadOptions) ropts) row = false) :
    ormRead (some msg) ost now key ropts = .error .notFound
    ∧ ormRead none ost now key ropts = .ok []
    ∧ ormList (some msg) ost now lopts
        = .error (.engine ("Couldn't find keys " ++ ost.database ++ "." ++ ost.table ++ ": " ++ msg))
    ∧ (rkvRead st now key ropts = .error .notFound ↔
        st.db.get now
          ((applyOpts ({ Table := st.options.Table } : ReadOptions) ropts).Table ++ key) = none) := by
  refine ⟨rfl, ?_, rfl, rkvRead_error_iff st hwf now key ropts⟩
  have hmatched : (ost.db.getTable ost.table).rows.filter
      (ormReadPred key (applyOpts ({} : ReadOptions) ropts)) = [] :=
    List.filter_eq_nil_iff.mpr (fun a ha => by simp [hnone a ha])
  simp only [ormRead, hmatched]
  simp

/-- Witness for C5 (amended) at concrete inputs. -/
theorem C5_notfound_semantics_witness :
    ormRead (some "dial tcp refused") exOrm (unixToNs 100) "zz" [] = .error .notFound
    ∧ ormRead none exOrm (unixToNs 100) "zz" [] = .ok []
    ∧ ormList (some "dial tcp refused") exOrm (unixToNs 100) []
        = .error (.engine ("Couldn't find keys " ++ exOrm.database ++ "." ++ exOrm.table
            ++ ": " ++ "dial tcp refused"))
    ∧ (rkvRead exRkv3 (unixToNs 100) "zz" [] = .error .notFound ↔
        exRkv3.db.get (unixToNs 100)
          ((applyOpts ({ Table := exRkv3.options.Table } : ReadOptions) []).Table ++ "zz") = none) :=
  C5_notfound_semantics exRkv3 exOrm (unixToNs 100) "zz" "dial tcp refused" [] []
    (show (exRkv3.db.entries.map Prod.fst).Nodup by decide) (by decide)

/-! Claim C6. -/

/-- With no flags set, the relational Read predicate is exact key equality. -/
theorem ormReadPred_exact (key : String) :
    ormReadPred key ({} : ReadOptions) = fun row => row.Key == key := by
  funext row
  simp [ormReadPred]

/-- The relational Read with no options: exact match, no limit, expiry
filter, row re-assembly. -/
theorem ormRead_exact (st : OrmStore) (now : Int) (key : String) :
    ormRead none st now key []
      = .ok ((((st.db.getTable st.table).rows.filter (fun row => row.Key == key)).filter
          (fun row => !rowExpired now row)).map rowToRecord) := by
  simp only [ormRead, applyOpts, List.foldl]
  rw [ormReadPred_exact key]
  simp

/-- Read-after-write on the relational adapter: under the unique-key
invariant, an exact Read of the just-written key before its resolved expiry
returns exactly the one upserted record. -/
theorem ormWrite_read_back (st : OrmStore) (now now2 : Int) (r : Record)
    (wopts : List WriteOption)
    (hU : (st.db.getTable st.table).UniqKeys)
    (hlive : ormResolveExpiry now r (applyOpts ({} : WriteOptions) wopts) ≠ 0 →
        ¬ unixToNs (ormResolveExpiry now r (applyOpts ({} : WriteOptions) wopts)) < now2) :
    ormRead none (ormWrite st now r wopts) now2 r.Key []
      = .ok [{ Key := r.Key, Value := r.Value, TTL := 0,
               Expiry := unixToNs (ormResolveExpiry now r (applyOpts ({} : WriteOptions) wopts)) }] := by
  rcases ormSet_filter_key (st.db.getTable st.table)
      { ID := 0, Key := r.Key, Value := r.Value,
        Expiry := ormResolveExpiry now r (applyOpts ({} : WriteOptions) wopts) } hU
    with ⟨idv, hfilter⟩
  dsimp only at hfilter
  have hexp : rowExpired now2
      { ID := idv, Key := r.Key, Value := r.Value,
        Expiry := ormResolveExpiry now r (applyOpts ({} : WriteOptions) wopts) } = false := by
    by_cases h0 : ormResolveExpiry now r (applyOpts ({} : WriteOptions) wopts) = 0
    · simp [rowExpired, h0]
    · have hnl := hlive h0
      simp [rowExpired, h0, hnl]
  rw [ormRead_exact]
  have hget : (ormWrite st now r wopts).db.getTable (ormWrite st now r wopts).table
      = ormSet (st.db.getTable st.table)
          { ID := 0, Key := r.Key, Value := r.Value,
            Expiry := ormResolveExpiry now r (applyOpts ({} : WriteOptions) wopts) } := by
    simp only [ormWrite]
    exact OrmDB.getTable_setTable _ _ _
  rw [hget, hfilter]
  simp [rowToRecord, hexp]

/-- Read-after-write on the cache adapter: provided the write options leave
the table untouched and the stored deadline (if any) has not passed, an
exact Read of the just-written key returns exactly one record carrying the
written value under the original key. -/
theorem rkvWrite_read_back (st : Rkv) (now now2 : Int) (r : Record)
    (wopts : List WriteOption)
    (hTbl : (applyOpts ({ Table := st.options.Table } : WriteOptions) wopts).Table
        = st.options.Table)
    (hlive : 0 < (rkvWrite st now r wopts).snd.TTL →
        now2 < now + (rkvWrite st now r wopts).snd.TTL) :
    ∃ d : Int, rkvRead { st with db := (rkvWrite st now r wopts).fst } now2 r.Key []
      = .ok [{ Key := r.Key, Value := r.Value, TTL := d, Expiry := now2 + d }] := by
  obtain ⟨hkey, hval⟩ := rkvWrite_snd st now r wopts
  refine ⟨(rkvWrite st now r wopts).fst.ttl now2 (st.options.Table ++ r.Key), ?_⟩
  have hget : (rkvWrite st now r wopts).fst.get now2 (st.options.Table ++ r.Key)
      = some r.Value := by
    rw [rkvWrite_fst st now r wopts, hTbl, hkey, hval]
    rw [RedisDB.get_set_self]
    by_cases hd : 0 < (rkvWrite st now r wopts).snd.TTL
    · rw [if_pos hd, if_pos (hlive hd)]
    · rw [if_neg hd]
  simp only [rkvRead, applyOpts, List.foldl, Bool.false_eq_true, if_false]
  simp only [rkvCollect, hget]

/-- C6: after a successful Write of a record — whether a first write or an
overwrite of an existing key — an exact-match Read of that key before its
resolved expiry returns exactly one record carrying the just-written value,
on both adapters (the relational upsert leaves a single row per key under
the unique-key invariant). -/
theorem C6_upsert_read_back (st : OrmStore) (rk : Rkv) (now now2 : Int)
    (r : Record) (wopts : List WriteOption)
    (hU : (st.db.getTable st.table).UniqKeys)
    (hlive1 : ormResolveExpiry now r (applyOpts ({} : WriteOptions) wopts) ≠ 0 →
        ¬ unixToNs (ormResolveExpiry now r (applyOpts ({} : WriteOptions) wopts)) < now2)
    (hTbl : (applyOpts ({ Table := rk.options.Table } : WriteOptions) wopts).Table
        = rk.options.Table)
    (hlive2 : 0 < (rkvWrite rk now r wopts).snd.TTL →
        now2 < now + (rkvWrite rk now r wopts).snd.TTL) :
    ormRead none (ormWrite st now r wopts) now2 r.Key []
        = .ok [{ Key := r.Key, Value := r.Value, TTL := 0,
                 Expiry := unixToNs (ormResolveExpiry now r (applyOpts ({} : WriteOptions) wopts)) }]
    ∧ ∃ d : Int, rkvRead { rk with db := (rkvWrite rk now r wopts).fst } now2 r.Key []
        = .ok [{ Key := r.Key, Value := r.Value, TTL := d, Expiry := now2 + d }] :=
  ⟨ormWrite_read_back st now now2 r wopts hU hlive1,
   rkvWrite_read_back rk now now2 r wopts hTbl hlive2⟩

/-- Witness for C6 at concrete inputs: overwriting the existing key b on the
relational side and writing a fresh key b on the cache side, then reading
back at the same instant. -/
theorem C6_upsert_read_back_witness :
    ormRead none
        (ormWrite exOrm (unixToNs 100) { Key := "b", Value := [9], TTL := 0, Expiry := 0 } [])
        (unixToNs 100) ("b" : String) []
        = .ok [{ Key := "b", Value := [9], TTL := 0,
                 Expiry := unixToNs (ormResolveExpiry (unixToNs 100)
                   { Key := "b", Value := [9], TTL := 0, Expiry := 0 }
                   (applyOpts ({} : WriteOptions) [])) }]
    ∧ ∃ d : Int,
        rkvRead
          { exRkv3 with
            db := (rkvWrite exRkv3 (unixToNs 100)
              { Key := "b", Value := [9], TTL := 0, Expiry := 0 } []).fst }
          (unixToNs 100) ("b" : String) []
        = .ok [{ Key := "b", Value := [9], TTL := d, Expiry := unixToNs 100 + d }] := by
  have h := C6_upsert_read_back exOrm exRkv3 (unixToNs 100) (unixToNs 100)
    { Key := "b", Value := [9], TTL := 0, Expiry := 0 } []
    (show ((exOrm.db.getTable exOrm.table).rows.Pairwise (fun a b => a.Key ≠ b.Key)) by decide)
    (by decide) (by decide) (by decide)
  exact ⟨h.1, h.2⟩

/-! Claim C8. -/

/-- C8 counterexample: the relational adapter ignores the operation-level
namespace option — a Read scoped by the option to table t2 still scans the
configured table t1 and returns the record written under t1 with the same
key. -/
theorem C8_counterexample :
    ormRead none exOrm2 (unixToNs 100) "k" [WithReadDatabase "d" "t2"]
      = .ok [{ Key := "k", Value := [7], TTL := 0, Expiry := 0 }] := by rfl

/-- C8 (amended): the cache adapter resolves the table with operation option
over store default for Read (and its exact Read is table-isolated: a lone
record stored under a different table prefix is not found), but its List
ignores the namespace entirely; the relational adapter ignores the
operation-level database/table on Read and List — the namespace is fixed at
configure time, where a non-empty, all-letter store-level database name wins
over the constant store fallback, which applies only when none is given. -/
theorem C8_namespace_resolution (st : Rkv) (ost : OrmStore) (now : Int)
    (key d t : String) (isLetter : Char → Bool) (o : Options)
    (hdb : o.Database.length ≠ 0) (hval : ∀ c ∈ o.Database.toList, isLetter c = true) :
    rkvRead st now key [WithReadDatabase d t]
        = rkvRead { st with options := { st.options with Table := t } } now key []
    ∧ (∀ t1 t2 k2 : String, ∀ e2 : RedisEntry, t1 ≠ t2 →
        rkvRead { options := { Table := t2 }, db := ⟨[(t1 ++ k2, e2)]⟩ } now k2 []
          = .error .notFound)
    ∧ rkvList st now [WithListFrom d t] = rkvList st now []
    ∧ ormRead none ost now key [WithReadDatabase d t] = ormRead none ost now key []
    ∧ ormList none ost now [WithListFrom d t] = ormList none ost now []
    ∧ (ormConfigure isLetter o).map Prod.fst = .ok o.Database
    ∧ ((∀ c ∈ ("store" : String).toList, isLetter c = true) →
        (ormConfigure isLetter { o with Database := "" }).map Prod.fst = .ok "store") := by
  refine ⟨rfl, ?_, rfl, rfl, rfl, ?_, ?_⟩
  · intro t1 t2 k2 e2 hne
    have hkey : ¬ ((t1 ++ k2 : String) = (t2 ++ k2 : String)) := by
      intro hcontra
      apply hne
      have hdata := congrArg String.data hcontra
      rw [String.data_append t1 k2, String.data_append t2 k2] at hdata
      exact String.ext (List.append_cancel_right hdata)
    simp only [rkvRead, applyOpts, List.foldl, rkvCollect, RedisDB.get, List.find?]
    rw [show ((t1 ++ k2 == t2 ++ k2) = false) from beq_eq_false_iff_ne.mpr hkey]
  · simp only [ormConfigure]
    rw [if_neg hdb, if_pos (List.all_eq_true.mpr hval)]
    rfl
  · intro hstore
    simp only [ormConfigure]
    rw [if_pos (by decide : ("" : String).length = 0), if_pos (List.all_eq_true.mpr hstore)]
    rfl

/-- Witness for C8 (amended) at concrete inputs: store-level database mydb
with letter validation by the ASCII predicate. -/
theorem C8_namespace_resolution_witness :
    rkvRead exRkv3 0 "a1" [WithReadDatabase "d" "t9"]
        = rkvRead { exRkv3 with options := { exRkv3.options with Table := "t9" } } 0 "a1" []
    ∧ (∀ t1 t2 k2 : String, ∀ e2 : RedisEntry, t1 ≠ t2 →
        rkvRead { options := { Table := t2 }, db := ⟨[(t1 ++ k2, e2)]⟩ } 0 k2 []
          = .error .notFound)
    ∧ rkvList exRkv3 0 [WithListFrom "d" "t9"] = rkvList exRkv3 0 []
    ∧ ormRead none exOrm2 0 "k" [WithReadDatabase "d" "t9"] = ormRead none exOrm2 0 "k" []
    ∧ ormList none exOrm2 0 [WithListFrom "d" "t9"] = ormList none exOrm2 0 []
    ∧ (ormConfigure Char.isAlpha { Database := "mydb" }).map Prod.fst = .ok "mydb"
    ∧ ((∀ c ∈ ("store" : String).toList, Char.isAlpha c = true) →
        (ormConfigure Char.isAlpha { (({ Database := "mydb" } : Options)) with Database := "" }).map
          Prod.fst = .ok "store") :=
  C8_namespace_resolution exRkv3 exOrm2 0 "k" "d" "t9" Char.isAlpha
    { Database := "mydb" } (by decide) (by decide)
